import Mathlib

/-!
Verification of the Ash host-agent sandbox daemon (Go sources under
src/docker and src/, package docker of the second, current revision of
manager.go together with parser.go).

Text is modelled as List Char (Go strings over the ASCII subset the
claims exercise), byte sequences as List Nat.
-/

namespace Ash

/-- Characters Go strings.TrimSpace removes (unicode.IsSpace over the
Latin-1 range: space, tab, newline, vertical tab, form feed, carriage
return, NEL, NBSP). -/
def isGoSpace (c : Char) : Bool :=
  (c = ' ') || (c = '\t') || (c = '\n') || (c = '\x0b') || (c = '\x0c') ||
  (c = '\r') || (c.toNat = 133) || (c.toNat = 160)

/-- Go strings.TrimRight(line, " "): drop trailing space characters. -/
def trimRightSpaces (l : List Char) : List Char :=
  (l.reverse.dropWhile (fun c => c = ' ')).reverse

/-- Helper for splitOnNl: prepend a character to the first segment. -/
def consHead (c : Char) : List (List Char) → List (List Char)
  | [] => [[c]]
  | h :: r => (c :: h) :: r

/-- Go strings.Split(raw, "\n") on character lists. -/
def splitOnNl : List Char → List (List Char)
  | [] => [[]]
  | c :: t => if c = '\n' then [] :: splitOnNl t else consHead c (splitOnNl t)

/-- Join lines, appending a newline after each one (shape of both the
screen dump and of cleanTerminalOutput's string builder). -/
def unlines : List (List Char) → List Char
  | [] => []
  | l :: ls => l ++ '\n' :: unlines ls

/-- Go strings.LastIndex(s, pat): index of the last occurrence of pat
in s, none when absent. -/
def lastIndexOfA (s pat : List Char) : Option Nat :=
  ((List.range (s.length + 1)).filter
    (fun i => pat.isPrefixOf (s.drop i))).getLast?

/-- Go strings.Contains(s, pat). -/
def containsSubstrA (s pat : List Char) : Bool :=
  (List.range (s.length + 1)).any (fun i => pat.isPrefixOf (s.drop i))

/-- Worker for removeAll; the fuel starts at the length of the string
and every step consumes at least one character, so the fuel never runs
out on the initial call. -/
def removeAllGo (pat : List Char) : Nat → List Char → List Char
  | _, [] => []
  | 0, s => s
  | fuel + 1, c :: t =>
    if pat.isPrefixOf (c :: t) ∧ pat ≠ [] then
      removeAllGo pat fuel (t.drop (pat.length - 1))
    else
      c :: removeAllGo pat fuel t

/-- Go strings.ReplaceAll(s, pat, ""): remove every (non-overlapping,
leftmost-first) occurrence of pat from s. -/
def removeAll (pat s : List Char) : List Char :=
  removeAllGo pat s.length s

/-- Association-list lookup, mirroring a Go map read. -/
def lookupA {β : Type} : List (List Char × β) → List Char → Option β
  | [], _ => none
  | (k, v) :: t, key => if k = key then some v else lookupA t key

/-! ## Terminal emulator

CleanUseEmulator (src/docker/parser.go) replays the raw byte stream
through the third-party vt10x emulator on a 300-column x 1000-row
virtual screen and post-processes the dump with cleanTerminalOutput.
The emulator itself is not part of this repository's sources. -/

/-- Parser mode of the emulator: plain text, after ESC, inside a
CSI sequence, inside an OSC sequence, after ESC inside an OSC. -/
inductive EmuMode
  | norm
  | esc
  | csi
  | osc
  | oscEsc
deriving DecidableEq, Repr

/-- Emulator state. The cursor never moves up in this model, so the
screen is kept sparsely: the rows strictly above the cursor (newest
first), the cursor's row, and the cursor column. Rows below the cursor
are blank and are dropped by the cleaning pass anyway. -/
structure EmuState where
  mode : EmuMode
  frozenRev : List (List Char)
  cur : List Char
  cx : Nat
deriving DecidableEq, Repr

/-- A run of n blank cells. -/
def blankTo (n : Nat) : List Char := List.replicate n ' '

/-- Write a character into a row at column x, padding with blanks when
the row is shorter than x. -/
def writeAt (row : List Char) (x : Nat) (c : Char) : List Char :=
  if x < row.length then row.set x c
  else row ++ blankTo (x - row.length) ++ [c]

/-- Finish the cursor's row. When the screen of height h is full the
top row scrolls off (frozenRev keeps newest first, so the oldest row is
the last). -/
def pushRow (h : Nat) (frozenRev : List (List Char)) (cur : List Char) :
    List (List Char) :=
  let fr := cur :: frozenRev
  if h ≤ fr.length then fr.dropLast else fr

/-- Characters that are printed into a cell: everything except the C0
control range and DEL. -/
def isWritableChar (c : Char) : Bool :=
  (32 ≤ c.toNat) && (c.toNat ≠ 127)

/-- Modelled from the spec: one step of the vt10x-class terminal
emulator, which is a dependency not present under src/. Spec 4.1: the
emulator replays printable characters, newline, carriage return,
backspace (cursor moves left, terminal backspace does not erase), and
consumes CSI sequences (ESC [ ... final byte in 0x40-0x7e), OSC
sequences (ESC ] ... BEL or ESC-terminated) and other two-character
escapes without emitting them; overflow beyond the fixed screen
scrolls, losing scrolled-off content. -/
def emuStep (w h : Nat) (s : EmuState) (c : Char) : EmuState :=
  match s.mode with
  | .norm =>
    if c = '\n' then
      { s with frozenRev := pushRow h s.frozenRev s.cur, cur := [], cx := 0 }
    else if c = '\r' then { s with cx := 0 }
    else if c = '\x08' then { s with cx := s.cx - 1 }
    else if c = '\x1b' then { s with mode := .esc }
    else if isWritableChar c then
      if w ≤ s.cx then
        { s with frozenRev := pushRow h s.frozenRev s.cur,
                 cur := writeAt [] 0 c, cx := 1 }
      else
        { s with cur := writeAt s.cur s.cx c, cx := s.cx + 1 }
    else s
  | .esc =>
    if c = '[' then { s with mode := .csi }
    else if c = ']' then { s with mode := .osc }
    else { s with mode := .norm }
  | .csi =>
    if 64 ≤ c.toNat ∧ c.toNat ≤ 126 then { s with mode := .norm } else s
  | .osc =>
    if c = '\x07' then { s with mode := .norm }
    else if c = '\x1b' then { s with mode := .oscEsc }
    else s
  | .oscEsc => { s with mode := .norm }

/-- The blank screen the replay starts from. -/
def initEmuState : EmuState := ⟨.norm, [], [], 0⟩

/-- Replay a whole buffer (screen.Write in CleanUseEmulator). -/
def replay (w h : Nat) (input : List Char) : EmuState :=
  input.foldl (emuStep w h) initEmuState

/-- The visible rows of the screen, top to bottom: the frozen rows and
the cursor's row (blank rows below the cursor are omitted; the
cleaning pass drops blank rows regardless). -/
def emuRows (s : EmuState) : List (List Char) :=
  s.frozenRev.reverse ++ [s.cur]

/-- The per-line processing of cleanTerminalOutput: trim trailing
spaces from every line and skip lines that are entirely whitespace. -/
def keepLines (ls : List (List Char)) : List (List Char) :=
  (ls.map trimRightSpaces).filter (fun l => !(l.all isGoSpace))

/-- src/docker/parser.go cleanTerminalOutput: split the screen dump on
newlines, trim trailing spaces from every line, skip lines that are
entirely whitespace, and emit each kept line followed by a newline. -/
def cleanTerminalOutput (raw : List Char) : List Char :=
  unlines (keepLines (splitOnNl raw))

/-- src/docker/parser.go CleanUseEmulator: replay the buffer on a
300 x 1000 screen (vt10x.WithSize(300, 1000)) and clean the dump. -/
def CleanUseEmulator (buf : List Char) : List Char :=
  cleanTerminalOutput (unlines (emuRows (replay 300 1000 buf)))

/-! ## Keystroke encoding (src/docker/manager.go EncodeInput) -/

/-- The general caret-processing loop of EncodeInput: a caret consumes
the next character, emitting X-64 when X is in 64..127 and nothing
otherwise; a trailing lone caret is dropped; other characters are
copied as their byte values. -/
def encodeCaretLoop : List Char → List Nat
  | [] => []
  | c :: rest =>
    if c = '^' then
      match rest with
      | [] => []
      | d :: rest2 =>
        (if 64 ≤ d.toNat ∧ d.toNat ≤ 127 then [d.toNat - 64] else []) ++
          encodeCaretLoop rest2
    else c.toNat :: encodeCaretLoop rest

/-- src/docker/manager.go EncodeInput: a two-byte string starting with
a caret whose second byte is in 64..95 maps to the single control byte;
every other string goes through the caret loop. -/
def EncodeInput (text : List Char) : List Nat :=
  match text with
  | ['^', d] =>
    if 64 ≤ d.toNat ∧ d.toNat ≤ 95 then [d.toNat - 64]
    else encodeCaretLoop text
  | _ => encodeCaretLoop text

/-! ## Shell session (src/docker/manager.go ContainerShell.Execute) -/

/-- Initial value of the process-wide var UserMarker in
src/docker/manager.go. -/
def UserMarkerInit : Bool := false

/-- The string spliced between the command and the marker by Execute
(fmt.Sprintf of the percent-s-space-semicolon form). -/
def execEchoInfix : List Char := (" ; echo ").toList

/-- src/docker/manager.go ContainerShell.Execute, observed as the byte
sequence written to the PTY: a two-byte caret command is written
encoded with no trailing newline; otherwise the command — wrapped with
the marker echo when UserMarker is set — is encoded with a trailing
newline. -/
def executeWrites (marker : List Char) (um : Bool) (cmd : List Char) :
    List Nat :=
  if cmd.length = 2 ∧ cmd.head? = some '^' then EncodeInput cmd
  else
    EncodeInput ((if um then cmd ++ execEchoInfix ++ marker else cmd) ++ ['\n'])

/-! ## Trajectory manager (src/docker/manager.go) -/

/-- src/docker/manager.go InstanceDetails of the current revision. -/
structure InstanceDetails where
  ContainerID : List Char
  TrajectoryID : List Char
  ImageID : List Char := []
  Env : List (List Char) := []
  ShellPath : List Char := []
  User : List Char := []
  WorkingDir : List Char := []
  NetworkDisabled : Bool := false
  Labels : List (List Char × List Char) := []
  LastestOutputPosition : Nat
deriving DecidableEq, Repr

/-- src/docker/manager.go ContainerShell, restricted to the field the
read path consults (the PTY plumbing is I/O and carries no data the
claims mention). -/
structure ContainerShell where
  Marker : List Char
deriving DecidableEq, Repr

/-- The Manager's two tables: sessions keyed by container id and
trajectoryInstanceMap keyed by trajectory id. -/
structure ManagerState where
  sessions : List (List Char × ContainerShell)
  trajectoryInstanceMap : List (List Char × InstanceDetails)
deriving DecidableEq, Repr

/-- src/docker/manager.go getInstanceLogFilePath. -/
def getInstanceLogFilePath (i : InstanceDetails) : List Char :=
  ("./tmp/container-output-trajectory-").toList ++ i.TrajectoryID ++
    (".txt").toList

/-- The string fmt.Sprintf of the semicolon-echo form builds in
GetOutput (note: no leading space, unlike Execute's wrapper). -/
def getOutputEchoPrefix : List Char := ("; echo ").toList

/-- Outcome of one GetOutput call: a successful (output, commandFinished)
pair, the two error returns, or a Go runtime panic (out-of-range string
slice, nil map entry dereference). -/
inductive GetOutputResult
  | ok (output : List Char) (commandFinished : Bool)
  | errNotFound
  | errFileRead
  | panic
deriving DecidableEq, Repr

/-- Write the new LastestOutputPosition through the map entry's
pointer. -/
def setPosition (m : List (List Char × InstanceDetails)) (tid : List Char)
    (p : Nat) : List (List Char × InstanceDetails) :=
  m.map (fun kv =>
    if kv.1 = tid then (kv.1, { kv.2 with LastestOutputPosition := p })
    else kv)

/-- The manager state after the trajectory's watermark was advanced. -/
def advancePos (m : ManagerState) (tid : List Char) (p : Nat) :
    ManagerState :=
  { m with trajectoryInstanceMap := setPosition m.trajectoryInstanceMap tid p }

/-- The marker-mode block of GetOutput, on the window of new cleaned
text: find the last occurrence of the echo string and discard
everything through it plus one further character (a Go slice panic
when that index passes the end of the window), report the finished
flag as the presence of the marker in the rest, and remove every
marker line from the returned text. -/
def markerResult (marker window : List Char) : GetOutputResult :=
  let echoStr := getOutputEchoPrefix ++ marker
  match lastIndexOfA window echoStr with
  | some i =>
    if i + echoStr.length + 1 ≤ window.length then
      let window2 := window.drop (i + echoStr.length + 1)
      .ok (removeAll (marker ++ ['\n']) window2)
          (containsSubstrA window2 marker)
    else .panic
  | none =>
    .ok (removeAll (marker ++ ['\n']) window)
        (containsSubstrA window marker)

/-- src/docker/manager.go Manager.GetOutput. The filesystem is an
association list from path to the file's current contents; um is the
process-wide UserMarker flag. Go string slices panic when the start
index exceeds the length, and a missing sessions entry makes the
Marker read a nil dereference; both surface as GetOutputResult.panic
at the point the original code would panic (in particular the
watermark is already advanced when the marker block panics). -/
def getOutput (um : Bool) (m : ManagerState)
    (fs : List (List Char × List Char)) (tid : List Char) :
    GetOutputResult × ManagerState :=
  match lookupA m.trajectoryInstanceMap tid with
  | none => (.errNotFound, m)
  | some inst =>
    match lookupA fs (getInstanceLogFilePath inst) with
    | none => (.errFileRead, m)
    | some output =>
      let cleanOutputAll := CleanUseEmulator output
      if inst.LastestOutputPosition ≤ cleanOutputAll.length then
        let window := cleanOutputAll.drop inst.LastestOutputPosition
        let m2 : ManagerState := advancePos m tid cleanOutputAll.length
        if um then
          match lookupA m.sessions inst.ContainerID with
          | none => (.panic, m2)
          | some sh => (markerResult sh.Marker window, m2)
        else (.ok window true, m2)
      else (.panic, m)

/-! ## Shutdown path (src/docker/manager.go CleanupTrajectory,
CleanupContainer) -/

/-- Container-runtime calls CleanupContainer issues, with the options
the source passes (StopOptions Signal SIGKILL, Timeout 2;
ContainerRemoveOptions RemoveVolumes true, Force true). -/
inductive DockerEvent
  | stop (cid signal : List Char) (timeout : Int)
  | remove (cid : List Char) (removeVolumes force : Bool)
  | prune (cid : List Char)
deriving DecidableEq, Repr

/-- The container runtime's view: which containers currently exist. -/
structure DockerWorld where
  containers : List (List Char)
deriving DecidableEq, Repr

/-- src/docker/manager.go CleanupContainer. Modelled from the spec for
the Docker daemon side (not part of src/): stopping a container that no
longer exists fails, and the source returns that error before issuing
the remove. On success the container is stopped (SIGKILL, 2-second
grace), force-removed with volumes, and pruned. Returns the issued
runtime calls, an error message (none on success) and the new runtime
state. -/
def cleanupContainer (w : DockerWorld) (cid : List Char) :
    List DockerEvent × Option (List Char) × DockerWorld :=
  if cid ∈ w.containers then
    ([.stop cid (("SIGKILL").toList) 2, .remove cid true true, .prune cid],
     none,
     { containers := w.containers.filter (fun c => c ≠ cid) })
  else
    ([.stop cid (("SIGKILL").toList) 2],
     some (("failed to stop container").toList), w)

/-- src/docker/manager.go CleanupTrajectory: look the trajectory up and
clean its container; a missing trajectory succeeds silently. The
trajectoryInstanceMap is returned unchanged — the source never deletes
the entry. -/
def cleanupTrajectory (m : ManagerState) (w : DockerWorld)
    (tid : List Char) :
    List DockerEvent × Option (List Char) × ManagerState × DockerWorld :=
  match lookupA m.trajectoryInstanceMap tid with
  | some inst =>
    let r := cleanupContainer w inst.ContainerID
    (r.1, r.2.1, m, r.2.2)
  | none => ([], none, m, w)

/-! ## Readings of spec sentences, and concrete scenarios -/

/-- The literal reading of the spec sentence behind claim C2: when
marker mode is on the call strips (removes) the marker and the
trailing semicolon-echo of it — the last occurrence of the echo string
plus the character after it is deleted while the text before it is
kept, every marker line is removed, and the finished flag reports
whether a marker occurs in the window. -/
def c2ClaimProcess (marker window : List Char) : List Char × Bool :=
  let echoStr := getOutputEchoPrefix ++ marker
  let stripped :=
    match lastIndexOfA window echoStr with
    | some i => window.take i ++ window.drop (i + echoStr.length + 1)
    | none => window
  (removeAll (marker ++ ['\n']) stripped, containsSubstrA window marker)

/-- Number of newline characters in a text; the cleaned text has one
per kept screen line. -/
def countNl (l : List Char) : Nat := l.count '\n'

/-- Concrete trajectory id used by the scenario theorems. -/
def trajT : List Char := ("t1").toList

/-- Concrete container id used by the scenario theorems. -/
def cidT : List Char := ("c1").toList

/-- Concrete session marker used by the scenario theorems. -/
def markerT : List Char := ("M").toList

/-- Concrete instance record with a fresh read watermark. -/
def instT : InstanceDetails :=
  { ContainerID := cidT, TrajectoryID := trajT, LastestOutputPosition := 0 }

/-- Concrete manager state: one live trajectory with one session. -/
def managerT : ManagerState := ⟨[(cidT, ⟨markerT⟩)], [(trajT, instT)]⟩

/-- The trajectory's log-file path. -/
def logPathT : List Char := getInstanceLogFilePath instT

/-- Log file contents before and after an append that shrinks the
cleaned view: the appended carriage return plus spaces overwrites the
visible line with blanks, so the cleaned text drops from four
characters to zero. -/
def fsAbc : List (List Char × List Char) := [(logPathT, ("abc").toList)]

/-- The same log file after the shrinking append. -/
def fsAbcShrunk : List (List Char × List Char) :=
  [(logPathT, ("abc\r   ").toList)]

/-- Log file whose cleaned window holds text before the last echo of
the marker: output of an earlier command, the echoed command line, new
output, and the marker line. -/
def fsEcho : List (List Char × List Char) :=
  [(logPathT, ("A\nc ; echo M\nB\nM\n").toList)]

/-- Log file whose cleaned window is exactly one marker line. -/
def fsMarkerOnly : List (List Char × List Char) :=
  [(logPathT, ("M\n").toList)]

/-- Runtime state in which the trajectory's container exists. -/
def worldT : DockerWorld := ⟨[cidT]⟩

/-- A buffer whose cleaned text fills all 1000 screen rows: 999
complete single-character lines and a final character on the last
row. -/
def c9Input : List Char := unlines (List.replicate 999 ['a']) ++ ['a']

/-- Rows the replay can produce: printable cells only, within the
screen width. -/
def rowOK (w : Nat) (r : List Char) : Prop :=
  (∀ c ∈ r, isWritableChar c = true) ∧ r.length ≤ w

/-- Invariant of the replay state: every row satisfies rowOK. -/
def stateOK (w : Nat) (s : EmuState) : Prop :=
  (∀ r ∈ s.frozenRev, rowOK w r) ∧ rowOK w s.cur

/-- Lines of a cleaned text: printable, within the width, fixed by
right-trimming, and not entirely whitespace. -/
def goodLine (w : Nat) (l : List Char) : Prop :=
  (∀ c ∈ l, isWritableChar c = true) ∧ l.length ≤ w ∧
  trimRightSpaces l = l ∧ l.all isGoSpace = false

/-- The kept screen lines whose joining is the cleaned text of a
buffer. -/
def cleanedLines (buf : List Char) : List (List Char) :=
  keepLines (splitOnNl (unlines (emuRows (replay 300 1000 buf))))

/-! ## Theorems -/

/-- Claim C5: the five boundary examples of the keystroke encoder all
hold on EncodeInput exactly as the spec states them. -/
theorem c5_encode_boundary :
    EncodeInput (("^A").toList) = [0x01] ∧
    EncodeInput (("^@").toList) = [0x00] ∧
    EncodeInput (("ab^Ccd").toList) = [0x61, 0x62, 0x03, 0x63, 0x64] ∧
    EncodeInput (("hello").toList) = [0x68, 0x65, 0x6c, 0x6c, 0x6f] ∧
    EncodeInput (("^").toList) = [] := by decide

/-- Claim C4, counterexample: the string ab^Ccd does not begin with a
caret, yet EncodeInput transforms it instead of returning its bytes
unchanged; and the caret form ^a with a beyond codepoint 95 is still
accepted by the loop, mapping to byte 33 instead of the bytes of the
string. -/
theorem c4_counterexample :
    (("ab^Ccd").toList).head? ≠ some '^' ∧
    EncodeInput (("ab^Ccd").toList) ≠ (("ab^Ccd").toList).map Char.toNat ∧
    EncodeInput (("^a").toList) = [33] ∧
    EncodeInput (("^a").toList) ≠ (("^a").toList).map Char.toNat := by decide

/-- Claim C8, counterexample: the buffer abc backspace backspace Z
newline does not clean to the two characters aZ — backspace moves the
cursor without erasing, and every kept line carries a trailing
newline, so the cleaned text is aZc newline. -/
theorem c8_counterexample :
    CleanUseEmulator (("abc\x08\x08Z\n").toList) ≠ ("aZ").toList := by decide

/-- Claim C8 amended: abc backspace backspace Z newline cleans to aZc
followed by a newline; the coloured buffer cleans to redGREEN end
followed by a newline with no escape byte remaining; and a line of all
spaces is dropped from the cleaned output. -/
theorem c8_amended_boundary :
    CleanUseEmulator (("abc\x08\x08Z\n").toList) = ("aZc\n").toList ∧
    CleanUseEmulator (("red\x1b[31mGREEN\x1b[0m end").toList) =
      ("redGREEN end\n").toList ∧
    '\x1b' ∉ CleanUseEmulator (("red\x1b[31mGREEN\x1b[0m end").toList) ∧
    CleanUseEmulator (("a\n   \nb\n").toList) = ("a\nb\n").toList := by decide

/-- Claim C1: evaluating GetOutput on a log file that first cleans to
four characters and, after an append of a carriage return and three
spaces, cleans to the empty text: the first call succeeds and advances
the watermark to 4, the appended file cleans to length 0, and the
second call hits the out-of-range suffix slice — the watermark exceeds
the cleaned length and the code panics instead of keeping the slice in
bounds. -/
theorem c1_watermark_violation :
    (getOutput false managerT fsAbc trajT).1 = .ok (("abc\n").toList) true ∧
    (lookupA (getOutput false managerT fsAbc trajT).2.trajectoryInstanceMap
        trajT).map (fun i => i.LastestOutputPosition) = some 4 ∧
    (CleanUseEmulator (("abc\r   ").toList)).length = 0 ∧
    (getOutput false (getOutput false managerT fsAbc trajT).2 fsAbcShrunk
        trajT).1 = .panic := by decide

/-- Claim C3: evaluating the shutdown path. The first CleanupTrajectory
on a live trajectory succeeds, issues ContainerStop with SIGKILL and a
2-second grace followed by a force-remove with volumes, and leaves the
runtime with no containers — but the trajectory entry is still in the
table afterwards, and a second CleanupTrajectory therefore reaches the
runtime again and returns an error; shutdown of a missing trajectory
succeeds silently. -/
theorem c3_entry_not_removed :
    (cleanupTrajectory managerT worldT trajT).2.1 = none ∧
    (cleanupTrajectory managerT worldT trajT).1 =
      [.stop cidT (("SIGKILL").toList) 2, .remove cidT true true,
       .prune cidT] ∧
    (cleanupTrajectory managerT worldT trajT).2.2.2.containers = [] ∧
    lookupA (cleanupTrajectory managerT worldT
        trajT).2.2.1.trajectoryInstanceMap trajT = some instT ∧
    (cleanupTrajectory (cleanupTrajectory managerT worldT trajT).2.2.1
        (cleanupTrajectory managerT worldT trajT).2.2.2 trajT).2.1 ≠ none ∧
    (cleanupTrajectory managerT worldT (("missing").toList)).2.1 = none := by
  decide

/-- Claim C2, counterexample: on a window that carries text before the
last command echo, GetOutput discards everything up to and past the
echo and returns only B newline, while the claimed reading — remove
the echo substring and the marker lines, keeping the rest — would
return A newline c space B newline. -/
theorem c2_counterexample :
    (getOutput true managerT fsEcho trajT).1 = .ok (("B\n").toList) true ∧
    c2ClaimProcess markerT
        ((CleanUseEmulator (("A\nc ; echo M\nB\nM\n").toList)).drop 0) =
      ((("A\nc B\n").toList), true) ∧
    ("B\n").toList ≠ ("A\nc B\n").toList := by decide

/-- The caret loop copies a caret-free string unchanged. -/
theorem encodeCaretLoop_no_caret (text : List Char) (h : '^' ∉ text) :
    encodeCaretLoop text = text.map Char.toNat := by
  induction text with
  | nil => rfl
  | cons c t ih =>
    have hc : c ≠ '^' := fun e => h (e ▸ List.mem_cons_self c t)
    have ht : '^' ∉ t := fun hm => h (List.mem_cons_of_mem c hm)
    rw [encodeCaretLoop.eq_def]
    simp only [if_neg hc]
    rw [ih ht, List.map_cons]

/-- EncodeInput falls through to the caret loop on caret-free input,
which copies the bytes unchanged. -/
theorem EncodeInput_no_caret (text : List Char) (h : '^' ∉ text) :
    EncodeInput text = text.map Char.toNat := by
  rw [EncodeInput.eq_def]
  split
  · exact absurd (List.mem_cons_self '^' _) h
  · exact encodeCaretLoop_no_caret text h

/-- The two-byte caret fast path of EncodeInput. -/
theorem EncodeInput_ctrl (d : Char) (h1 : 64 ≤ d.toNat)
    (h2 : d.toNat ≤ 95) : EncodeInput ['^', d] = [d.toNat - 64] := by
  rw [EncodeInput.eq_def]
  simp [h1, h2]

/-- Claim C4 amended: the two-character caret form maps to the single
control byte X-64 for X with codepoint 64..95, and a string containing
no caret at all (rather than merely not beginning with one) is
returned as exactly its bytes. -/
theorem c4_amended :
    (∀ d : Char, 64 ≤ d.toNat → d.toNat ≤ 95 →
      EncodeInput ['^', d] = [d.toNat - 64]) ∧
    (∀ text : List Char, '^' ∉ text →
      EncodeInput text = text.map Char.toNat) :=
  ⟨fun d h1 h2 => EncodeInput_ctrl d h1 h2,
   fun text h => EncodeInput_no_caret text h⟩

/-- Witness for c4_amended at the control key caret-A and the plain
string hello. -/
theorem c4_amended_witness :
    (64 ≤ ('A').toNat ∧ ('A').toNat ≤ 95 ∧
      EncodeInput ['^', 'A'] = [('A').toNat - 64]) ∧
    ('^' ∉ ("hello").toList ∧
      EncodeInput (("hello").toList) = (("hello").toList).map Char.toNat) :=
  ⟨⟨by decide, by decide, c4_amended.1 'A' (by decide) (by decide)⟩,
   ⟨by decide, c4_amended.2 (("hello").toList) (by decide)⟩⟩

/-- Claim C6: a command of exactly two bytes starting with a caret is
written as its encoding with no newline appended (for X in 64..95 that
is the single control byte); with marker mode on, a non-control
command is written as the encoding of the command, the echo wrapper,
the session marker and a trailing newline; and marker mode is off by
default. -/
theorem c6_execute :
    UserMarkerInit = false ∧
    (∀ marker : List Char, ∀ um : Bool, ∀ cmd : List Char,
      cmd.length = 2 → cmd.head? = some '^' →
      executeWrites marker um cmd = EncodeInput cmd) ∧
    (∀ marker : List Char, ∀ um : Bool, ∀ d : Char,
      64 ≤ d.toNat → d.toNat ≤ 95 →
      executeWrites marker um ['^', d] = [d.toNat - 64]) ∧
    (∀ marker cmd : List Char, ¬(cmd.length = 2 ∧ cmd.head? = some '^') →
      executeWrites marker true cmd =
        EncodeInput (cmd ++ execEchoInfix ++ marker ++ ['\n'])) := by
  refine ⟨rfl, ?_, ?_, ?_⟩
  · intro marker um cmd h1 h2
    unfold executeWrites
    rw [if_pos ⟨h1, h2⟩]
  · intro marker um d h1 h2
    unfold executeWrites
    rw [if_pos ⟨rfl, rfl⟩]
    exact EncodeInput_ctrl d h1 h2
  · intro marker cmd h
    unfold executeWrites
    rw [if_neg h]
    simp [List.append_assoc]

/-- Witness for c6_execute at the control command caret-C and the
plain command ls. -/
theorem c6_execute_witness :
    (UserMarkerInit = false) ∧
    ((("^C").toList).length = 2 ∧ (("^C").toList).head? = some '^' ∧
      executeWrites markerT true (("^C").toList) =
        EncodeInput (("^C").toList)) ∧
    (64 ≤ ('C').toNat ∧ ('C').toNat ≤ 95 ∧
      executeWrites markerT false ['^', 'C'] = [('C').toNat - 64]) ∧
    (¬((("ls").toList).length = 2 ∧ (("ls").toList).head? = some '^') ∧
      executeWrites markerT true (("ls").toList) =
        EncodeInput ((("ls").toList) ++ execEchoInfix ++ markerT ++ ['\n'])) :=
  ⟨c6_execute.1,
   ⟨by decide, by decide,
    c6_execute.2.1 markerT true (("^C").toList) (by decide) (by decide)⟩,
   ⟨by decide, by decide,
    c6_execute.2.2.1 markerT false 'C' (by decide) (by decide)⟩,
   ⟨by decide, c6_execute.2.2.2 markerT (("ls").toList) (by decide)⟩⟩

/-- Claim C10: with the marker flag off, every successful GetOutput
reports the command as finished regardless of the log contents. -/
theorem c10_flag_always_true (m : ManagerState)
    (fs : List (List Char × List Char)) (tid out : List Char) (flag : Bool)
    (m2 : ManagerState)
    (h : getOutput false m fs tid = (.ok out flag, m2)) : flag = true := by
  unfold getOutput at h
  cases hl : lookupA m.trajectoryInstanceMap tid with
  | none => rw [hl] at h; simp at h
  | some inst =>
    simp only [hl] at h
    cases hf : lookupA fs (getInstanceLogFilePath inst) with
    | none => simp only [hf] at h; simp at h
    | some content =>
      simp only [hf] at h
      by_cases hp :
          inst.LastestOutputPosition ≤ (CleanUseEmulator content).length
      · rw [if_pos hp] at h
        simp at h
        exact h.1.2
      · rw [if_neg hp] at h; simp at h

/-- Witness for c10_flag_always_true at the concrete one-trajectory
state. -/
theorem c10_witness :
    (getOutput false managerT fsAbc trajT =
      (.ok (("abc\n").toList) true,
       (getOutput false managerT fsAbc trajT).2)) ∧
    (true = true) :=
  ⟨by decide,
   c10_flag_always_true managerT fsAbc trajT (("abc\n").toList) true
     (getOutput false managerT fsAbc trajT).2 (by decide)⟩

/-- A successful association lookup yields a member of the list. -/
theorem lookupA_mem {β : Type} (l : List (List Char × β)) (k : List Char)
    (v : β) (h : lookupA l k = some v) : (k, v) ∈ l := by
  induction l with
  | nil => simp [lookupA] at h
  | cons kv t ih =>
    cases kv with
    | mk k0 v0 =>
      rw [lookupA] at h
      by_cases he : k0 = k
      · rw [if_pos he] at h
        injection h with hv
        subst he
        subst hv
        exact List.mem_cons_self _ _
      · rw [if_neg he] at h
        exact List.mem_cons_of_mem _ (ih h)

/-- Looking the trajectory up again after its watermark was advanced. -/
theorem lookupA_setPosition (l : List (List Char × InstanceDetails))
    (tid : List Char) (p : Nat) :
    lookupA (setPosition l tid p) tid =
      (lookupA l tid).map
        (fun i => { i with LastestOutputPosition := p }) := by
  induction l with
  | nil => rfl
  | cons kv t ih =>
    cases kv with
    | mk k0 v0 =>
      by_cases he : k0 = tid
      · subst he
        simp only [setPosition, List.map_cons]
        rw [if_pos trivial]
        rw [lookupA, if_pos rfl]
        conv_rhs => rw [lookupA, if_pos rfl]
        rfl
      · simp only [setPosition, List.map_cons] at ih ⊢
        rw [if_neg he, lookupA, if_neg he]
        conv_rhs => rw [lookupA, if_neg he]
        exact ih

/-- The echo string GetOutput searches for starts with a semicolon. -/
theorem getOutputEchoPrefix_eq :
    getOutputEchoPrefix = [';', ' ', 'e', 'c', 'h', 'o', ' '] := by decide

/-- No nonempty pattern occurs in the empty window. -/
theorem lastIndexOfA_nil_cons (c : Char) (p : List Char) :
    lastIndexOfA [] (c :: p) = none := by
  simp [lastIndexOfA, List.range_succ, List.range_zero, List.isPrefixOf]

/-- The empty window contains no nonempty substring. -/
theorem containsSubstrA_nil_cons (c : Char) (p : List Char) :
    containsSubstrA [] (c :: p) = false := by
  simp [containsSubstrA, List.range_succ, List.range_zero, List.isPrefixOf]

/-- Inversion of a successful GetOutput call: both lookups succeeded,
the watermark was within the cleaned length, the returned state is the
input state with the watermark advanced to the full cleaned length,
and in marker mode the session lookup succeeded as well. -/
theorem getOutput_ok_inv (um : Bool) (m : ManagerState)
    (fs : List (List Char × List Char)) (tid out : List Char)
    (flag : Bool) (m1 : ManagerState)
    (h : getOutput um m fs tid = (.ok out flag, m1)) :
    ∃ inst content,
      lookupA m.trajectoryInstanceMap tid = some inst ∧
      lookupA fs (getInstanceLogFilePath inst) = some content ∧
      inst.LastestOutputPosition ≤ (CleanUseEmulator content).length ∧
      m1 = advancePos m tid (CleanUseEmulator content).length ∧
      (um = true → ∃ sh, lookupA m.sessions inst.ContainerID = some sh) := by
  unfold getOutput at h
  cases hl : lookupA m.trajectoryInstanceMap tid with
  | none => simp only [hl] at h; simp at h
  | some inst =>
    simp only [hl] at h
    cases hf : lookupA fs (getInstanceLogFilePath inst) with
    | none => simp only [hf] at h; simp at h
    | some content =>
      simp only [hf] at h
      by_cases hp :
          inst.LastestOutputPosition ≤ (CleanUseEmulator content).length
      · rw [if_pos hp] at h
        refine ⟨inst, content, rfl, hf, hp, ?_⟩
        cases um with
        | false =>
          simp at h
          exact ⟨h.2.symm, fun hc => by simp at hc⟩
        | true =>
          cases hs : lookupA m.sessions inst.ContainerID with
          | none => simp only [hs] at h; simp at h
          | some sh =>
            simp only [hs] at h
            rw [Prod.mk.injEq] at h
            exact ⟨h.2.symm, fun _ => ⟨sh, rfl⟩⟩
      · rw [if_neg hp] at h; simp at h

/-- A GetOutput call whose watermark already equals the cleaned length
of the (unchanged) log returns the empty window; the finished flag is
true without markers and false with markers, because the empty window
contains no marker. -/
theorem getOutput_full_window (um : Bool) (m : ManagerState)
    (fs : List (List Char × List Char)) (tid : List Char)
    (inst : InstanceDetails) (content : List Char)
    (hl : lookupA m.trajectoryInstanceMap tid = some inst)
    (hf : lookupA fs (getInstanceLogFilePath inst) = some content)
    (hpos : inst.LastestOutputPosition = (CleanUseEmulator content).length)
    (hsess : um = true →
      ∃ sh, lookupA m.sessions inst.ContainerID = some sh ∧
        sh.Marker ≠ []) :
    (getOutput um m fs tid).1 = .ok [] (!um) := by
  unfold getOutput
  simp only [hl, hf, hpos, le_refl, if_true, List.drop_length]
  cases um with
  | false => simp
  | true =>
    obtain ⟨sh, hs, hm⟩ := hsess rfl
    simp only [hs]
    show markerResult sh.Marker [] = _
    unfold markerResult
    rw [getOutputEchoPrefix_eq]
    simp only [List.cons_append, lastIndexOfA_nil_cons]
    obtain ⟨c, p, hcp⟩ := List.exists_cons_of_ne_nil hm
    rw [hcp, containsSubstrA_nil_cons]
    simp [removeAll, removeAllGo]

/-- Claim C7 amended: a repeated GetOutput on an unchanged log file
returns the empty string; the finished flag of the repeated call is
true when marker mode is off (as it was on the first call) and false
when marker mode is on — the empty window contains no marker — so the
flag is unchanged exactly when marker mode is off or the first call
already reported false. -/
theorem c7_amended (um : Bool) (m : ManagerState)
    (fs : List (List Char × List Char)) (tid out : List Char)
    (flag : Bool) (m1 : ManagerState)
    (hmk : ∀ kv ∈ m.sessions, kv.2.Marker ≠ [])
    (h : getOutput um m fs tid = (.ok out flag, m1)) :
    (getOutput um m1 fs tid).1 = .ok [] (!um) := by
  obtain ⟨inst, content, hl, hf, hp, hm1, hsess⟩ :=
    getOutput_ok_inv um m fs tid out flag m1 h
  subst hm1
  refine getOutput_full_window um _ fs tid
    { inst with LastestOutputPosition := (CleanUseEmulator content).length }
    content ?_ hf rfl ?_
  · show lookupA (setPosition m.trajectoryInstanceMap tid
      (CleanUseEmulator content).length) tid = _
    rw [lookupA_setPosition, hl]
    rfl
  · intro hum
    obtain ⟨sh, hs⟩ := hsess hum
    exact ⟨sh, hs, hmk (inst.ContainerID, sh) (lookupA_mem _ _ _ hs)⟩

/-- Witness for c7_amended at the concrete marker-only scenario. -/
theorem c7_amended_witness :
    ((∀ kv ∈ managerT.sessions, kv.2.Marker ≠ []) ∧
      getOutput true managerT fsMarkerOnly trajT =
        (.ok [] true, (getOutput true managerT fsMarkerOnly trajT).2)) ∧
    (getOutput true (getOutput true managerT fsMarkerOnly trajT).2
        fsMarkerOnly trajT).1 = .ok [] (!true) :=
  ⟨⟨by decide, by decide⟩,
   c7_amended true managerT fsMarkerOnly trajT [] true
     (getOutput true managerT fsMarkerOnly trajT).2 (by decide) (by decide)⟩

/-- Claim C2 amended: a GetOutput call on an existing trajectory with a
readable log and an in-bounds watermark cleans the whole file, takes
the suffix at the watermark, advances the watermark to the full
cleaned length, and — in marker mode — discards everything up to and
past the last occurrence of the echo string (panicking when the skip
passes the end of the window), removes the marker lines from the rest
and reports the finished flag as the presence of a marker in the
truncated rest; without marker mode it returns the raw window with the
flag true. -/
theorem c2_amended (m : ManagerState) (fs : List (List Char × List Char))
    (tid : List Char) (inst : InstanceDetails) (content : List Char)
    (sh : ContainerShell)
    (hl : lookupA m.trajectoryInstanceMap tid = some inst)
    (hf : lookupA fs (getInstanceLogFilePath inst) = some content)
    (hp : inst.LastestOutputPosition ≤ (CleanUseEmulator content).length)
    (hs : lookupA m.sessions inst.ContainerID = some sh) :
    getOutput true m fs tid =
      (markerResult sh.Marker
        ((CleanUseEmulator content).drop inst.LastestOutputPosition),
       advancePos m tid (CleanUseEmulator content).length) ∧
    getOutput false m fs tid =
      (.ok ((CleanUseEmulator content).drop inst.LastestOutputPosition) true,
       advancePos m tid (CleanUseEmulator content).length) := by
  constructor
  · unfold getOutput
    simp only [hl, hf, if_pos hp, hs]
    rw [if_pos trivial]
  · unfold getOutput
    simp only [hl, hf, if_pos hp]
    simp

/-- Witness for c2_amended at the concrete echo scenario. -/
theorem c2_amended_witness :
    (lookupA managerT.trajectoryInstanceMap trajT = some instT ∧
     lookupA fsEcho (getInstanceLogFilePath instT) =
       some (("A\nc ; echo M\nB\nM\n").toList) ∧
     instT.LastestOutputPosition ≤
       (CleanUseEmulator (("A\nc ; echo M\nB\nM\n").toList)).length ∧
     lookupA managerT.sessions instT.ContainerID = some ⟨markerT⟩) ∧
    getOutput true managerT fsEcho trajT =
      (markerResult markerT
        ((CleanUseEmulator (("A\nc ; echo M\nB\nM\n").toList)).drop
          instT.LastestOutputPosition),
       advancePos managerT trajT
         (CleanUseEmulator (("A\nc ; echo M\nB\nM\n").toList)).length) :=
  ⟨⟨by decide, by decide, by decide, by decide⟩,
   (c2_amended managerT fsEcho trajT instT
     (("A\nc ; echo M\nB\nM\n").toList) ⟨markerT⟩ (by decide) (by decide)
     (by decide) (by decide)).1⟩

/-- Claim C7, counterexample: with marker mode on and a log file whose
cleaned text is a single marker line, the first GetOutput returns the
empty string with the finished flag true, and a second GetOutput on
the unchanged log returns the empty string with the flag false — the
flag is not unchanged. -/
theorem c7_counterexample :
    (getOutput true managerT fsMarkerOnly trajT).1 = .ok [] true ∧
    (getOutput true (getOutput true managerT fsMarkerOnly trajT).2
        fsMarkerOnly trajT).1 = .ok [] false := by decide

/-- Length of a cell write: the row grows exactly to cover column x. -/
theorem writeAt_length (row : List Char) (x : Nat) (c : Char) :
    (writeAt row x c).length = max row.length (x + 1) := by
  unfold writeAt
  split
  · rename_i hx
    rw [List.length_set]
    omega
  · rename_i hx
    simp only [List.length_append, blankTo, List.length_replicate,
      List.length_cons, List.length_nil]
    omega

/-- Cells after a write: old cells, the written character, or the
blank padding. -/
theorem mem_writeAt (row : List Char) (x : Nat) (c d : Char)
    (h : d ∈ writeAt row x c) : d ∈ row ∨ d = c ∨ d = ' ' := by
  unfold writeAt at h
  split at h
  · rcases List.mem_or_eq_of_mem_set h with h1 | h1
    · exact Or.inl h1
    · exact Or.inr (Or.inl h1)
  · rcases List.mem_append.1 h with h1 | h1
    · rcases List.mem_append.1 h1 with h2 | h2
      · exact Or.inl h2
      · exact Or.inr (Or.inr (List.eq_of_mem_replicate h2))
    · simp only [List.mem_singleton] at h1
      exact Or.inr (Or.inl h1)

/-- Writing at the end of the row appends. -/
theorem writeAt_append (row : List Char) (c : Char) :
    writeAt row row.length c = row ++ [c] := by
  unfold writeAt
  rw [if_neg (lt_irrefl _)]
  simp [blankTo]

/-- Rows of a pushed screen come from the pushed row or the old
screen. -/
theorem mem_pushRow (hh : Nat) (fr : List (List Char)) (cur r : List Char)
    (h : r ∈ pushRow hh fr cur) : r = cur ∨ r ∈ fr := by
  unfold pushRow at h
  dsimp only at h
  split at h
  · exact List.mem_cons.1 ((List.dropLast_sublist (cur :: fr)).subset h)
  · exact List.mem_cons.1 h

/-- The empty row is well formed. -/
theorem rowOK_nil (w : Nat) : rowOK w [] :=
  ⟨fun c hc => absurd hc (List.not_mem_nil c), by simp⟩

/-- A printable character is none of the four control characters the
replay interprets. -/
theorem writable_facts (c : Char) (h : isWritableChar c = true) :
    c ≠ '\n' ∧ c ≠ '\r' ∧ c ≠ '\x08' ∧ c ≠ '\x1b' := by
  unfold isWritableChar at h
  rw [Bool.and_eq_true, decide_eq_true_eq, decide_eq_true_eq] at h
  refine ⟨fun he => ?_, fun he => ?_, fun he => ?_, fun he => ?_⟩ <;>
    (subst he; exact absurd h.1 (by decide))

/-- One replay step preserves the row invariant. -/
theorem stateOK_emuStep (w hh : Nat) (s : EmuState) (c : Char)
    (hw : 0 < w) (hs : stateOK w s) : stateOK w (emuStep w hh s c) := by
  obtain ⟨hfr, hcur⟩ := hs
  have hpush : ∀ r ∈ pushRow hh s.frozenRev s.cur, rowOK w r := by
    intro r hr
    rcases mem_pushRow hh s.frozenRev s.cur r hr with h1 | h1
    · exact h1 ▸ hcur
    · exact hfr r h1
  unfold emuStep
  split
  · split_ifs with h1 h2 h3 h4 h5 h6
    · exact ⟨hpush, rowOK_nil w⟩
    · exact ⟨hfr, hcur⟩
    · exact ⟨hfr, hcur⟩
    · exact ⟨hfr, hcur⟩
    · refine ⟨hpush, ?_⟩
      constructor
      · intro d hd
        rcases mem_writeAt [] 0 c d hd with hm | hm | hm
        · exact absurd hm (List.not_mem_nil d)
        · exact hm ▸ h5
        · exact hm ▸ (by decide)
      · rw [writeAt_length]
        simp
        omega
    · refine ⟨hfr, ?_⟩
      constructor
      · intro d hd
        rcases mem_writeAt s.cur s.cx c d hd with hm | hm | hm
        · exact hcur.1 d hm
        · exact hm ▸ h5
        · exact hm ▸ (by decide)
      · rw [writeAt_length]
        have := hcur.2
        omega
    · exact ⟨hfr, hcur⟩
  · split_ifs <;> exact ⟨hfr, hcur⟩
  · split_ifs <;> exact ⟨hfr, hcur⟩
  · split_ifs <;> exact ⟨hfr, hcur⟩
  · exact ⟨hfr, hcur⟩

/-- The row invariant holds after replaying any buffer. -/
theorem stateOK_foldl (w hh : Nat) (l : List Char) (s : EmuState)
    (hw : 0 < w) (hs : stateOK w s) :
    stateOK w (l.foldl (emuStep w hh) s) := by
  induction l generalizing s with
  | nil => exact hs
  | cons c t ih => exact ih _ (stateOK_emuStep w hh s c hw hs)

/-- The row invariant for a full replay from the blank screen. -/
theorem stateOK_replay (w hh : Nat) (buf : List Char) (hw : 0 < w) :
    stateOK w (replay w hh buf) :=
  stateOK_foldl w hh buf initEmuState hw
    ⟨fun r hr => absurd hr (List.not_mem_nil r), rowOK_nil w⟩

/-- Every visible row of a replayed screen is well formed. -/
theorem emuRows_rowOK (w hh : Nat) (buf : List Char) (hw : 0 < w) :
    ∀ r ∈ emuRows (replay w hh buf), rowOK w r := by
  obtain ⟨hfr, hcur⟩ := stateOK_replay w hh buf hw
  intro r hr
  unfold emuRows at hr
  rcases List.mem_append.1 hr with h1 | h1
  · exact hfr r (List.mem_reverse.1 h1)
  · simp only [List.mem_singleton] at h1
    exact h1 ▸ hcur

/-- Well-formed rows contain no newline. -/
theorem rowOK_no_nl (w : Nat) (r : List Char) (h : rowOK w r) :
    '\n' ∉ r :=
  fun hm => absurd (h.1 '\n' hm) (by decide)

/-- Right-trimming only removes elements. -/
theorem trimRightSpaces_sublist (l : List Char) :
    List.Sublist (trimRightSpaces l) l := by
  unfold trimRightSpaces
  have h : List.Sublist (l.reverse.dropWhile (fun c => c = ' '))
      l.reverse := List.dropWhile_sublist _
  have h2 := h.reverse
  rwa [List.reverse_reverse] at h2

/-- dropWhile is idempotent. -/
theorem dropWhile_self_idem (p : Char → Bool) (l : List Char) :
    (l.dropWhile p).dropWhile p = l.dropWhile p := by
  induction l with
  | nil => rfl
  | cons c t ih =>
    by_cases hc : p c = true
    · rw [List.dropWhile_cons_of_pos hc, ih]
    · rw [List.dropWhile_cons_of_neg (by simpa using hc),
        List.dropWhile_cons_of_neg (by simpa using hc)]

/-- Right-trimming is idempotent. -/
theorem trimRightSpaces_idem (l : List Char) :
    trimRightSpaces (trimRightSpaces l) = trimRightSpaces l := by
  unfold trimRightSpaces
  rw [List.reverse_reverse, dropWhile_self_idem]

/-- Splitting a newline-free line followed by a newline peels one
segment. -/
theorem splitOnNl_append_line (l rest : List Char) (h : '\n' ∉ l) :
    splitOnNl (l ++ '\n' :: rest) = l :: splitOnNl rest := by
  induction l with
  | nil => simp [splitOnNl]
  | cons c t ih =>
    have hc : c ≠ '\n' := fun e => h (e ▸ List.mem_cons_self c t)
    have ht : '\n' ∉ t := fun hm => h (List.mem_cons_of_mem c hm)
    rw [List.cons_append, splitOnNl, if_neg hc, ih ht, consHead]

/-- Splitting the joined lines recovers them plus a final empty
segment. -/
theorem splitOnNl_unlines (L : List (List Char))
    (h : ∀ l ∈ L, '\n' ∉ l) :
    splitOnNl (unlines L) = L ++ [[]] := by
  induction L with
  | nil => rfl
  | cons l ls ih =>
    rw [unlines, splitOnNl_append_line l _ (h l (List.mem_cons_self l ls)),
      ih (fun x hx => h x (List.mem_cons_of_mem l hx)), List.cons_append]

/-- unlines distributes over append. -/
theorem unlines_append (A B : List (List Char)) :
    unlines (A ++ B) = unlines A ++ unlines B := by
  induction A with
  | nil => rfl
  | cons l ls ih =>
    rw [List.cons_append, unlines, unlines, ih]
    simp [List.append_assoc]

/-- The joined lines carry one newline per line. -/
theorem countNl_unlines (L : List (List Char)) (h : ∀ l ∈ L, '\n' ∉ l) :
    countNl (unlines L) = L.length := by
  induction L with
  | nil => rfl
  | cons l ls ih =>
    unfold countNl at ih ⊢
    rw [unlines, List.count_append, List.count_cons_self,
      List.count_eq_zero.2 (h l (List.mem_cons_self l ls)),
      ih (fun x hx => h x (List.mem_cons_of_mem l hx))]
    simp [Nat.add_comm]

/-- keepLines distributes over append. -/
theorem keepLines_append (A B : List (List Char)) :
    keepLines (A ++ B) = keepLines A ++ keepLines B := by
  unfold keepLines
  rw [List.map_append, List.filter_append]

/-- The lines kept from well-formed rows are well-formed cleaned
lines. -/
theorem keepLines_goodLine (w : Nat) (ls : List (List Char))
    (hrows : ∀ r ∈ ls, rowOK w r) :
    ∀ l ∈ keepLines ls, goodLine w l := by
  intro l hl
  unfold keepLines at hl
  obtain ⟨hmem, hpred⟩ := List.mem_filter.1 hl
  obtain ⟨r, hr, hlr⟩ := List.mem_map.1 hmem
  obtain ⟨hrc, hrlen⟩ := hrows r hr
  subst hlr
  refine ⟨?_, ?_, trimRightSpaces_idem r, ?_⟩
  · intro c hc
    exact hrc c ((trimRightSpaces_sublist r).subset hc)
  · exact le_trans (trimRightSpaces_sublist r).length_le hrlen
  · simpa using hpred

/-- Mapping a function that fixes every member is the identity. -/
theorem mapSelf {α : Type} (f : α → α) (l : List α)
    (h : ∀ x ∈ l, f x = x) : l.map f = l := by
  induction l with
  | nil => rfl
  | cons c t ih =>
    rw [List.map_cons, h c (List.mem_cons_self c t),
      ih (fun x hx => h x (List.mem_cons_of_mem c hx))]

/-- Well-formed cleaned lines pass through keepLines unchanged. -/
theorem keepLines_fixed (w : Nat) (K : List (List Char))
    (h : ∀ l ∈ K, goodLine w l) : keepLines K = K := by
  unfold keepLines
  rw [mapSelf _ _ (fun l hl => (h l hl).2.2.1)]
  rw [List.filter_eq_self.2 ?_]
  intro l hl
  simp [(h l hl).2.2.2]

/-- Well-formed cleaned lines contain no newline. -/
theorem goodLine_no_nl (w : Nat) (l : List Char) (h : goodLine w l) :
    '\n' ∉ l :=
  fun hm => absurd (h.1 '\n' hm) (by decide)

/-- Replaying one printable line in normal mode writes it after the
current prefix of the cursor row. -/
theorem replay_line (w hh : Nat) (fr : List (List Char))
    (pre l : List Char)
    (hw : ∀ c ∈ l, isWritableChar c = true)
    (hlen : pre.length + l.length ≤ w) :
    l.foldl (emuStep w hh) ⟨.norm, fr, pre, pre.length⟩ =
      ⟨.norm, fr, pre ++ l, (pre ++ l).length⟩ := by
  induction l generalizing pre with
  | nil => simp
  | cons c t ih =>
    rw [List.foldl_cons]
    have hwc := hw c (List.mem_cons_self c t)
    obtain ⟨h1, h2, h3, h4⟩ := writable_facts c hwc
    have hcx : ¬ (w ≤ pre.length) := by
      simp only [List.length_cons] at hlen
      omega
    have hstep : emuStep w hh ⟨.norm, fr, pre, pre.length⟩ c =
        ⟨.norm, fr, pre ++ [c], (pre ++ [c]).length⟩ := by
      unfold emuStep
      simp only [if_neg h1, if_neg h2, if_neg h3, if_neg h4, hwc, if_true,
        if_neg hcx, writeAt_append]
      simp
    rw [hstep]
    have hlen2 : (pre ++ [c]).length + t.length ≤ w := by
      simp only [List.length_append, List.length_cons, List.length_nil] at *
      omega
    have hrest := ih (pre ++ [c])
      (fun d hd => hw d (List.mem_cons_of_mem c hd)) hlen2
    rw [hrest]
    simp [List.append_assoc]

/-- Replaying joined printable lines that fit on the screen freezes
exactly those lines, newest first. -/
theorem replay_unlines (w hh : Nat) (L : List (List Char))
    (fr : List (List Char))
    (hgood : ∀ l ∈ L,
      (∀ c ∈ l, isWritableChar c = true) ∧ l.length ≤ w)
    (hcnt : fr.length + L.length < hh) :
    (unlines L).foldl (emuStep w hh) ⟨.norm, fr, [], 0⟩ =
      ⟨.norm, L.reverse ++ fr, [], 0⟩ := by
  induction L generalizing fr with
  | nil => simp [unlines]
  | cons l ls ih =>
    rw [unlines, List.foldl_append]
    have h1 : l.foldl (emuStep w hh) ⟨.norm, fr, [], 0⟩ =
        ⟨.norm, fr, l, l.length⟩ := by
      have := replay_line w hh fr [] l
        (hgood l (List.mem_cons_self l ls)).1
        (by simpa using (hgood l (List.mem_cons_self l ls)).2)
      simpa using this
    rw [h1, List.foldl_cons]
    have hlt : ¬ (hh ≤ (l :: fr).length) := by
      simp only [List.length_cons] at hcnt ⊢
      omega
    have hstep : emuStep w hh ⟨.norm, fr, l, l.length⟩ '\n' =
        ⟨.norm, l :: fr, [], 0⟩ := by
      unfold emuStep
      rw [if_pos rfl]
      unfold pushRow
      dsimp only
      rw [if_neg hlt]
    rw [hstep]
    have hrest := ih (l :: fr)
      (fun x hx => hgood x (List.mem_cons_of_mem l hx))
      (by simp only [List.length_cons] at hcnt ⊢; omega)
    rw [hrest]
    simp [List.append_assoc]

/-- Cleaning the joined newline-free rows keeps exactly the kept
lines. -/
theorem clean_rows_eq (R : List (List Char)) (hnl : ∀ r ∈ R, '\n' ∉ r) :
    cleanTerminalOutput (unlines R) = unlines (keepLines R) := by
  unfold cleanTerminalOutput
  rw [splitOnNl_unlines R hnl, keepLines_append]
  rw [show keepLines [[]] = [] from rfl, List.append_nil]

/-- Every cleaned line of any buffer is well formed. -/
theorem cleanedLines_good (buf : List Char) :
    ∀ l ∈ cleanedLines buf, goodLine 300 l := by
  have hrows := emuRows_rowOK 300 1000 buf (by norm_num)
  have hnl : ∀ r ∈ emuRows (replay 300 1000 buf), '\n' ∉ r :=
    fun r hr => rowOK_no_nl 300 r (hrows r hr)
  unfold cleanedLines
  rw [splitOnNl_unlines _ hnl]
  apply keepLines_goodLine
  intro r hr
  rcases List.mem_append.1 hr with h1 | h1
  · exact hrows r h1
  · simp only [List.mem_singleton] at h1
    exact h1 ▸ rowOK_nil 300

/-- Claim C9 amended: the cleaned-text transform is idempotent on
every buffer whose cleaned text has at most 999 lines; when it fills
all 1000 screen rows, replaying the cleaned text scrolls its first
line off the screen, so idempotence can only fail there. -/
theorem c9_amended (buf : List Char)
    (h : countNl (CleanUseEmulator buf) ≤ 999) :
    CleanUseEmulator (CleanUseEmulator buf) = CleanUseEmulator buf := by
  have hgood := cleanedLines_good buf
  have heq : CleanUseEmulator buf = unlines (cleanedLines buf) := rfl
  set K := cleanedLines buf with hKdef
  have hnlK : ∀ l ∈ K, '\n' ∉ l :=
    fun l hl => goodLine_no_nl 300 l (hgood l hl)
  have hcount : K.length ≤ 999 := by
    rw [heq, countNl_unlines K hnlK] at h
    exact h
  have hrep : replay 300 1000 (unlines K) = ⟨.norm, K.reverse, [], 0⟩ := by
    have h2 := replay_unlines 300 1000 K []
      (fun l hl => ⟨(hgood l hl).1, (hgood l hl).2.1⟩)
      (by simp only [List.length_nil, Nat.zero_add]; omega)
    unfold replay
    simpa [initEmuState] using h2
  rw [heq]
  show cleanTerminalOutput
      (unlines (emuRows (replay 300 1000 (unlines K)))) = unlines K
  rw [hrep]
  unfold emuRows
  dsimp only
  rw [List.reverse_reverse]
  rw [clean_rows_eq (K ++ [[]]) ?_]
  · rw [keepLines_append, keepLines_fixed 300 K hgood,
      show keepLines [[]] = [] from rfl, List.append_nil]
  · intro r hr
    rcases List.mem_append.1 hr with h1 | h1
    · exact hnlK r h1
    · simp only [List.mem_singleton] at h1
      subst h1
      exact List.not_mem_nil _

/-- Witness for c9_amended at a small two-line buffer. -/
theorem c9_amended_witness :
    countNl (CleanUseEmulator (("hi\nthere").toList)) ≤ 999 ∧
    CleanUseEmulator (CleanUseEmulator (("hi\nthere").toList)) =
      CleanUseEmulator (("hi\nthere").toList) :=
  ⟨by decide, c9_amended (("hi\nthere").toList) (by decide)⟩

/-- Every line of the single-character test block is a well-formed
cleaned line. -/
theorem replicate_a_good (n : Nat) :
    ∀ l ∈ List.replicate n ['a'], goodLine 300 l := by
  intro l hl
  rw [List.eq_of_mem_replicate hl]
  exact ⟨by decide, by decide, by decide, by decide⟩

/-- Replaying a single printable character from a fresh line. -/
theorem step_a (fr : List (List Char)) :
    emuStep 300 1000 ⟨.norm, fr, [], 0⟩ 'a' = ⟨.norm, fr, ['a'], 1⟩ := rfl

/-- The 999 full lines of the scroll counterexample replay without
scrolling. -/
theorem replay_rep999 :
    (unlines (List.replicate 999 ['a'])).foldl (emuStep 300 1000)
      initEmuState = ⟨.norm, List.replicate 999 ['a'], [], 0⟩ := by
  have h1 := replay_unlines 300 1000 (List.replicate 999 ['a']) []
    (fun l hl =>
      ⟨(replicate_a_good 999 l hl).1, (replicate_a_good 999 l hl).2.1⟩)
    (by simp only [List.length_nil, List.length_replicate]; omega)
  rw [List.reverse_replicate, List.append_nil] at h1
  exact h1

/-- The counterexample input cleans to 1000 full screen lines. -/
theorem clean_c9Input :
    CleanUseEmulator c9Input = unlines (List.replicate 1000 ['a']) := by
  have hrep : replay 300 1000 c9Input =
      ⟨.norm, List.replicate 999 ['a'], ['a'], 1⟩ := by
    unfold replay c9Input
    rw [List.foldl_append, replay_rep999, List.foldl_cons, List.foldl_nil,
      step_a]
  show cleanTerminalOutput (unlines (emuRows (replay 300 1000 c9Input))) = _
  rw [hrep]
  unfold emuRows
  dsimp only
  rw [List.reverse_replicate,
    show List.replicate 999 ['a'] ++ [['a']] = List.replicate 1000 ['a']
      from (List.replicate_succ' 999 ['a']).symm]
  rw [clean_rows_eq _ ?_]
  · rw [keepLines_fixed 300 _ (replicate_a_good 1000)]
  · intro r hr
    exact goodLine_no_nl 300 r (replicate_a_good 1000 r hr)

/-- Cleaning the 1000-line text again loses the first line to the
scroll triggered by the final newline. -/
theorem clean_unlines_1000 :
    CleanUseEmulator (unlines (List.replicate 1000 ['a'])) =
      unlines (List.replicate 999 ['a']) := by
  have hrep : replay 300 1000 (unlines (List.replicate 1000 ['a'])) =
      ⟨.norm, List.replicate 999 ['a'], [], 0⟩ := by
    unfold replay
    rw [show List.replicate 1000 ['a'] =
        List.replicate 999 ['a'] ++ [['a']]
        from List.replicate_succ' 999 ['a']]
    rw [unlines_append, List.foldl_append, replay_rep999]
    show List.foldl (emuStep 300 1000) _ ('a' :: '\n' :: []) = _
    rw [List.foldl_cons, step_a, List.foldl_cons, List.foldl_nil]
    unfold emuStep
    rw [if_pos rfl]
    unfold pushRow
    dsimp only
    rw [if_pos (by
      simp only [List.length_cons, List.length_replicate]
      omega)]
    rw [show (['a'] :: List.replicate 999 ['a'] : List (List Char)) =
        List.replicate 999 ['a'] ++ [['a']]
        from by rw [← List.replicate_succ]; exact List.replicate_succ' 999 ['a'],
      List.dropLast_concat]
  show cleanTerminalOutput
      (unlines (emuRows (replay 300 1000
        (unlines (List.replicate 1000 ['a']))))) = _
  rw [hrep]
  unfold emuRows
  dsimp only
  rw [List.reverse_replicate]
  rw [clean_rows_eq _ ?_]
  · rw [keepLines_append, keepLines_fixed 300 _ (replicate_a_good 999),
      show keepLines [[]] = [] from rfl, List.append_nil]
  · intro r hr
    rcases List.mem_append.1 hr with h1 | h1
    · exact goodLine_no_nl 300 r (replicate_a_good 999 r h1)
    · simp only [List.mem_singleton] at h1
      subst h1
      exact List.not_mem_nil _

/-- Length of the single-character test block. -/
theorem length_unlines_rep_a (n : Nat) :
    (unlines (List.replicate n ['a'])).length = 2 * n := by
  induction n with
  | zero => rfl
  | succ k ih =>
    rw [List.replicate_succ, unlines]
    simp only [List.length_append, List.length_cons, List.length_nil, ih]
    omega

/-- Claim C9, counterexample: on the buffer whose cleaned text fills
all 1000 screen rows, cleaning the cleaned text drops the first line —
the trailing newline of the 1000th line scrolls the screen — so the
cleaned-text transform is not idempotent. -/
theorem c9_counterexample :
    CleanUseEmulator (CleanUseEmulator c9Input) ≠ CleanUseEmulator c9Input := by
  rw [clean_c9Input, clean_unlines_1000]
  intro he
  have hlen := congrArg List.length he
  rw [length_unlines_rep_a, length_unlines_rep_a] at hlen
  omega

end Ash
